import Mathlib

/-!
The message history ring buffer, the line-ending stripping and the connection handler
of socket-chat (`main.c`).

A shallow embedding of `src/main.c`.

* A `char` buffer is a `List Nat` of bytes; the C string held in a buffer is the
  bytes before its first `0`.
* An access outside the buffer object is undefined behaviour in C; the embedding
  returns `Except.error` with the `Fault` that names it.
* `size_t` values are naturals below `SIZE_MOD = 2^64`; the subtraction
  `x - 1` on `size_t` is taken modulo `SIZE_MOD`.
* The cursors `msg_queue_newest` and `msg_queue_oldest` are C `int`s that are only
  ever incremented and reduced modulo `MSG_QUEUE_LEN` from `0` and
  `MSG_QUEUE_LEN - 1`; they are naturals here.
-/

namespace SocketChat

/-! ## Constants (`#define`s of `main.c`) -/

/-- The constant `#define MAX_MSG_LEN 64`: the size of a message buffer. -/
def MAX_MSG_LEN : Nat := 64

/-- The constant `#define MSG_QUEUE_LEN 8`: the number of slots. -/
def MSG_QUEUE_LEN : Nat := 8

/-- Number of values of `size_t` (64-bit). -/
def SIZE_MOD : Nat := 18446744073709551616

/-- The byte `'\n'`. -/
def LF : Nat := 10

/-- The byte `'\r'`. -/
def CR : Nat := 13

/-- The bytes of a string literal (used to write inputs readably). -/
def bytes (s : String) : List Nat := s.toList.map Char.toNat

/-! ## Faults: the undefined behaviours the embedding tracks -/

/-- Ways an operation of the program leaves defined behaviour. -/
inductive Fault where
  /-- A string function ran off the end of the buffer: no `0` byte in it. -/
  | unterminated : Fault
  /-- The element with this index was read or written outside its object. -/
  | out_of_bounds (idx : Nat) : Fault
  /-- A copy or format needed `needed` bytes in a buffer of `capacity` bytes. -/
  | overflow (needed capacity : Nat) : Fault
  /-- The loop did not finish within the fuel given to the model. -/
  | out_of_fuel : Fault
  deriving DecidableEq, Repr

deriving instance DecidableEq for Except

/-! ## C string primitives -/

/-- The function `strlen(buf)`: the index of the first `0` byte; running off the buffer is a fault. -/
def strlen : List Nat → Except Fault Nat
  | [] => .error .unterminated
  | b :: bs =>
    if b = 0 then .ok 0
    else
      match strlen bs with
      | .ok n => .ok (n + 1)
      | .error e => .error e

/-- The string a `%s` conversion reads from `buf`: the bytes before the terminator. -/
def c_str (buf : List Nat) : Except Fault (List Nat) :=
  match strlen buf with
  | .ok n => .ok (buf.take n)
  | .error e => .error e

/-- The read `buf[i]`. -/
def read_at (buf : List Nat) (i : Nat) : Except Fault Nat :=
  match buf[i]? with
  | some b => .ok b
  | none => .error (.out_of_bounds i)

/-- The write `buf[i] = v`. -/
def write_at (buf : List Nat) (i v : Nat) : Except Fault (List Nat) :=
  if i < buf.length then .ok (buf.set i v) else .error (.out_of_bounds i)

/-- The function `strcpy(dst, src)`: copies the string in `src` and its terminator to the start of `dst`. -/
def strcpy (dst src : List Nat) : Except Fault (List Nat) :=
  match strlen src with
  | .error e => .error e
  | .ok n =>
    if n + 1 ≤ dst.length then .ok (src.take (n + 1) ++ dst.drop (n + 1))
    else .error (.overflow (n + 1) dst.length)

/-- The subtraction `x - 1` on `size_t`. -/
def size_pred (x : Nat) : Nat := (x + SIZE_MOD - 1) % SIZE_MOD

/-! ## `cut_newline` (main.c 84-97) -/

/-- The function `cut_newline(text)`. Both conditions are `&&`: the comparison `>= 0` of a `size_t`
comes first and is always true, so the element is always read. -/
def cut_newline (text : List Nat) : Except Fault (List Nat) :=
  match strlen text with
  | .error e => .error e
  | .ok len =>
    let lf_pos := size_pred len
    match read_at text lf_pos with
    | .error e => .error e
    | .ok c =>
      if 0 ≤ lf_pos ∧ c = LF then
        match write_at text lf_pos 0 with
        | .error e => .error e
        | .ok text1 =>
          let cr_pos := size_pred lf_pos
          match read_at text1 cr_pos with
          | .error e => .error e
          | .ok d =>
            if 0 ≤ cr_pos ∧ d = CR then write_at text1 cr_pos 0
            else .ok text1
      else .ok text

/-! ## The message history ring buffer (main.c 23-56) -/

/-- The globals `msg_queue`, `msg_queue_newest` and `msg_queue_oldest`. -/
structure MsgQueue where
  /-- The array `char msg_queue[MSG_QUEUE_LEN][MAX_MSG_LEN]`. -/
  msg_queue : List (List Nat)
  /-- The cursor `int msg_queue_newest`. -/
  msg_queue_newest : Nat
  /-- The cursor `int msg_queue_oldest`. -/
  msg_queue_oldest : Nat
  deriving DecidableEq, Repr

/-- The state at program start: a zero-initialised array, `newest = 0`,
`oldest = MSG_QUEUE_LEN - 1`. -/
def init_queue : MsgQueue where
  msg_queue := List.replicate MSG_QUEUE_LEN (List.replicate MAX_MSG_LEN 0)
  msg_queue_newest := 0
  msg_queue_oldest := MSG_QUEUE_LEN - 1

/-- What a call of `add_msg_to_queue` leaves behind. -/
structure AddResult where
  /-- The globals after the call. -/
  queue : MsgQueue
  /-- The caller's buffer `msg` after the call (it is shortened in place). -/
  msg : List Nat
  /-- Whether the "buffer overflow avoided" line was written to `stderr`. -/
  warned : Bool
  deriving DecidableEq, Repr

/-- The function `add_msg_to_queue(msg)`. -/
def add_msg_to_queue (q : MsgQueue) (msg : List Nat) : Except Fault AddResult :=
  match strlen msg with
  | .error e => .error e
  | .ok len =>
    let warned := decide (len ≥ MAX_MSG_LEN)
    match (if len ≥ MAX_MSG_LEN then write_at msg (MAX_MSG_LEN - 1) 0 else .ok msg) with
    | .error e => .error e
    | .ok msg1 =>
      match q.msg_queue[q.msg_queue_newest]? with
      | none => .error (.out_of_bounds q.msg_queue_newest)
      | some dst =>
        match strcpy dst msg1 with
        | .error e => .error e
        | .ok dst1 =>
          let oldest :=
            if q.msg_queue_newest = q.msg_queue_oldest
            then (q.msg_queue_oldest + 1) % MSG_QUEUE_LEN
            else q.msg_queue_oldest
          .ok { queue :=
                  { msg_queue := q.msg_queue.set q.msg_queue_newest dst1
                    msg_queue_newest := (q.msg_queue_newest + 1) % MSG_QUEUE_LEN
                    msg_queue_oldest := oldest }
                msg := msg1
                warned := warned }

/-- The call `printf("%s\n", msg_queue[pos])`: the string printed for slot `pos`. -/
def print_slot (q : MsgQueue) (pos : Nat) : Except Fault (List Nat) :=
  match q.msg_queue[pos]? with
  | none => .error (.out_of_bounds pos)
  | some buf => c_str buf

/-- The loop of `print_msg_queue`, started with `pos`: the positions it visits, each with
the string printed for it, in order. One unit of fuel is one evaluation of the loop
condition `(pos = (pos+1) % MSG_QUEUE_LEN) != msg_queue_newest`. -/
def print_loop (q : MsgQueue) : Nat → Nat → Except Fault (List (Nat × List Nat))
  | 0, _ => .error .out_of_fuel
  | fuel + 1, pos =>
    let pos1 := (pos + 1) % MSG_QUEUE_LEN
    if pos1 ≠ q.msg_queue_newest then
      match print_slot q pos1 with
      | .error e => .error e
      | .ok s =>
        match print_loop q fuel pos1 with
        | .ok out => .ok ((pos1, s) :: out)
        | .error e => .error e
    else .ok []

/-- The function `print_msg_queue()`: the strings it prints, one per line, in order (the header
`oldest: %d   newest: %d` that precedes them is left out). -/
def print_msg_queue (fuel : Nat) (q : MsgQueue) : Except Fault (List (List Nat)) :=
  match print_loop q fuel q.msg_queue_oldest with
  | .error e => .error e
  | .ok out => .ok (out.map Prod.snd)

/-- The slot indices `print_msg_queue()` reads, in order. -/
def printed_positions (fuel : Nat) (q : MsgQueue) : Except Fault (List Nat) :=
  match print_loop q fuel q.msg_queue_oldest with
  | .error e => .error e
  | .ok out => .ok (out.map Prod.fst)

/-- Successive calls of `add_msg_to_queue`, one per message. -/
def add_all : MsgQueue → List (List Nat) → Except Fault MsgQueue
  | q, [] => .ok q
  | q, msg :: rest =>
    match add_msg_to_queue q msg with
    | .error e => .error e
    | .ok r => add_all r.queue rest

/-- What `print_msg_queue` prints after the messages were appended to the initial queue. -/
def dump_after (fuel : Nat) (msgs : List (List Nat)) : Except Fault (List (List Nat)) :=
  match add_all init_queue msgs with
  | .error e => .error e
  | .ok q => print_msg_queue fuel q

/-! ## The connection handler (main.c 100-149)

The handler of one session, run on its own. The operating system's answers to its
`send` and `recv` calls are inputs: one `Handshake` for the calls before the loop and one
`Iteration` for each pass of the loop. `server_msg` is written from its start by a
`sprintf` right before each use, and `strlen(server_msg)` bytes of it are sent: the
embedding keeps the formatted string and checks that it fits `sizeof(server_msg)`. -/

/-- What a `recv` call does: it fails with `-1`, or it stores the bytes at the start of
the buffer and returns their number (`0`: the peer has closed the connection). -/
inductive RecvResult where
  | error : RecvResult
  | data (chunk : List Nat) : RecvResult
  deriving DecidableEq, Repr

/-- The value `recv(sock, buf, size, 0)` returns. -/
def recv_ret (size : Nat) : RecvResult → Int
  | .error => -1
  | .data chunk => (min chunk.length size : Nat)

/-- The buffer after `recv(sock, buf, sizeof(buf), 0)`: at most `sizeof(buf)` bytes are
stored, the rest of the buffer keeps its bytes, and no terminator is written. -/
def recv_into (buf : List Nat) : RecvResult → List Nat
  | .error => buf
  | .data chunk =>
    let n := min chunk.length buf.length
    chunk.take n ++ buf.drop n

/-- The results of the calls before the loop. -/
structure Handshake where
  /-- Return value of `send` for the username prompt. -/
  prompt_send : Int
  /-- Outcome of `recv` for the username. -/
  received : RecvResult
  /-- Return value of `send` for the greeting. -/
  greeting_send : Int
  deriving DecidableEq, Repr

/-- The results of the calls of one pass of the loop. -/
structure Iteration where
  /-- Return value of `send` for the `"Send: "` prompt. -/
  prompt_send : Int
  /-- Outcome of `recv` for the message. -/
  received : RecvResult
  /-- Return value of `send` for the echo line. -/
  echo_send : Int
  deriving DecidableEq, Repr

/-- The state of a session. -/
structure Session where
  /-- The global ring buffer. -/
  queue : MsgQueue
  /-- The local `char client_msg[MAX_MSG_LEN]`. -/
  client_msg : List Nat
  /-- The payloads handed to `send`, oldest first. -/
  sent : List (List Nat)
  /-- Whether `close(client_socket)` has been called. -/
  closed : Bool
  deriving DecidableEq, Repr

/-- Where a run of the handler stands once the given results are used up. -/
inductive Outcome where
  /-- Still inside the handler, about to make its next `send`. -/
  | running (s : Session) : Outcome
  /-- The handler has executed a `return`. -/
  | returned (s : Session) : Outcome
  /-- Undefined behaviour was reached. -/
  | crashed (f : Fault) : Outcome
  deriving DecidableEq, Repr

/-- The call `sprintf(server_msg, ...)` producing `out`: the string and its terminator must fit
`char server_msg[MAX_MSG_LEN]`. -/
def sprintf_server_msg (out : List Nat) : Except Fault (List Nat) :=
  if out.length + 1 ≤ MAX_MSG_LEN then .ok out
  else .error (.overflow (out.length + 1) MAX_MSG_LEN)

/-- The literal `"Hello user. Choose a username: "`. -/
def username_prompt : List Nat := bytes "Hello user. Choose a username: "

/-- The styled label `"\033[4mLinus\033[0m: "` of the echo line. -/
def echo_label : List Nat := bytes "\x1b[4mLinus\x1b[0m: "

/-- The call `sprintf(server_msg, "Hello %s!\n", username)`. -/
def format_greeting (username : List Nat) : Except Fault (List Nat) :=
  match c_str username with
  | .error e => .error e
  | .ok name => sprintf_server_msg (bytes "Hello " ++ name ++ bytes "!\n")

/-- The call `sprintf(server_msg, "\033[4mLinus\033[0m: %s\n", client_msg)`. -/
def format_echo (client_msg : List Nat) : Except Fault (List Nat) :=
  match c_str client_msg with
  | .error e => .error e
  | .ok text => sprintf_server_msg (echo_label ++ text ++ [LF])

/-- Lines 104-119: prompt, username, greeting. `username0` and `client_msg0` are the
bytes the uninitialised locals `username` and `client_msg` hold on entry. -/
def handshake (q : MsgQueue) (username0 client_msg0 : List Nat) (res : Handshake) : Outcome :=
  -- send(client_socket, username_prompt, ...): the result is not examined
  let sent1 := [username_prompt]
  if recv_ret username0.length res.received < 0 then
    .returned { queue := q, client_msg := client_msg0, sent := sent1, closed := true }
  else
    match cut_newline (recv_into username0 res.received) with
    | .error e => .crashed e
    | .ok username =>
      match format_greeting username with
      | .error e => .crashed e
      | .ok greeting =>
        -- send(client_socket, server_msg, ...): the result is not examined
        .running { queue := q, client_msg := client_msg0, sent := sent1 ++ [greeting],
                   closed := false }

/-- One pass of the `while (1)` loop, lines 123-144. -/
def loop_body (s : Session) (res : Iteration) : Outcome :=
  match sprintf_server_msg (bytes "Send: ") with
  | .error e => .crashed e
  | .ok prompt =>
    let s1 := { s with sent := s.sent ++ [prompt] }
    if res.prompt_send < 0 then .returned s1
    else if recv_ret s1.client_msg.length res.received < 0 then .returned s1
    else
      match cut_newline (recv_into s1.client_msg res.received) with
      | .error e => .crashed e
      | .ok client_msg1 =>
        match add_msg_to_queue s1.queue client_msg1 with
        | .error e => .crashed e
        | .ok r =>
          match print_msg_queue MSG_QUEUE_LEN r.queue with
          | .error e => .crashed e
          | .ok _ =>
            match format_echo r.msg with
            | .error e => .crashed e
            | .ok echo =>
              -- send(client_socket, server_msg, ...): the result is not examined
              .running { s1 with queue := r.queue, client_msg := r.msg,
                                 sent := s1.sent ++ [echo] }

/-- The loop, for as many passes as there are results. -/
def handler_loop : Outcome → List Iteration → Outcome
  | .running s, res :: rest => handler_loop (loop_body s res) rest
  | o, _ => o

/-- The function `client_handler`, run on the given results of its `send` and `recv` calls. -/
def client_handler (q : MsgQueue) (username0 client_msg0 : List Nat)
    (hs : Handshake) (its : List Iteration) : Outcome :=
  handler_loop (handshake q username0 client_msg0 hs) its

/-- The C string left in `text` by `cut_newline(text)`. -/
def cut_newline_str (text : List Nat) : Except Fault (List Nat) :=
  match cut_newline text with
  | .error e => .error e
  | .ok text1 => c_str text1

/-- The ring buffer `q` after the strings of `h` were stored in it, oldest first: the
slots are well formed, the cursors are where `h.length` appends leave them, and each of
the last `MSG_QUEUE_LEN` strings of `h` is read back from the slot it was written to. -/
def Represents (q : MsgQueue) (h : List (List Nat)) : Prop :=
  q.msg_queue.length = MSG_QUEUE_LEN
  ∧ (∀ buf ∈ q.msg_queue, buf.length = MAX_MSG_LEN ∧ ∃ s, c_str buf = .ok s)
  ∧ q.msg_queue_newest = h.length % MSG_QUEUE_LEN
  ∧ q.msg_queue_oldest
      = (if h.length < MSG_QUEUE_LEN then MSG_QUEUE_LEN - 1 else h.length % MSG_QUEUE_LEN)
  ∧ ∀ i s, h[i]? = some s → h.length ≤ i + MSG_QUEUE_LEN →
      print_slot q (i % MSG_QUEUE_LEN) = .ok s

/-- The C string held in a buffer (empty when the buffer has no terminator). -/
def str_of (buf : List Nat) : List Nat :=
  match c_str buf with
  | .ok s => s
  | .error _ => []

/-- The string `add_msg_to_queue` stores for the message in `msg`: its first
`MAX_MSG_LEN - 1` characters. -/
def stored_str (msg : List Nat) : List Nat := (str_of msg).take (MAX_MSG_LEN - 1)

/-- Nine distinct messages `"m1"`, ..., `"m9"`, each in a buffer with its terminator:
`MSG_QUEUE_LEN + 1` appends. -/
def nine_messages : List (List Nat) :=
  [bytes "m1", bytes "m2", bytes "m3", bytes "m4", bytes "m5", bytes "m6", bytes "m7",
   bytes "m8", bytes "m9"].map (· ++ [0])

/-- Nineteen distinct one-character strings `"a"`, ..., `"s"`:
`2 * MSG_QUEUE_LEN + 3` messages. -/
def nineteen_strings : List (List Nat) := (List.range 19).map (fun i => [97 + i])

/-- The session a run stands in, when it has not crashed. -/
def Outcome.session : Outcome → Option Session
  | .running s => some s
  | .returned s => some s
  | .crashed _ => none

/-- Whether the handler has returned. -/
def Outcome.terminated : Outcome → Bool
  | .returned _ => true
  | _ => false

/-- What `print_msg_queue` would print for the ring buffer a run has reached. -/
def Outcome.history (o : Outcome) : Except Fault (List (List Nat)) :=
  match o with
  | .running s => print_msg_queue MSG_QUEUE_LEN s.queue
  | .returned s => print_msg_queue MSG_QUEUE_LEN s.queue
  | .crashed f => .error f

/-- The handshake of the spec's end-to-end example: the client sends `"alice\n"`. -/
def alice : Handshake :=
  { prompt_send := 31, received := .data (bytes "alice\n"), greeting_send := 13 }

/-- A pass of the loop in which all calls succeed and the client sends `chunk`. -/
def pass (chunk : List Nat) : Iteration :=
  { prompt_send := 6, received := .data chunk, echo_send := 1 }

/-- A 64-byte local that happens to hold zeros on entry. -/
def zeroed : List Nat := List.replicate MAX_MSG_LEN 0

/-! ## Lemmas on the string primitives -/

theorem strlen_append_zero (s rest : List Nat) (hs : ∀ b ∈ s, b ≠ 0) :
    strlen (s ++ 0 :: rest) = .ok s.length := by
  induction s with
  | nil => simp [strlen]
  | cons b bs ih =>
    have hb : b ≠ 0 := hs b (by simp)
    have ih1 := ih (fun c hc => hs c (by simp [hc]))
    simp [strlen, hb, ih1]

theorem strlen_split (buf : List Nat) (n : Nat) (h : strlen buf = .ok n) :
    ∃ s rest, buf = s ++ 0 :: rest ∧ s.length = n ∧ ∀ b ∈ s, b ≠ 0 := by
  induction buf generalizing n with
  | nil => simp [strlen] at h
  | cons b bs ih =>
    by_cases hb : b = 0
    · subst hb
      simp [strlen] at h
      exact ⟨[], bs, by simp, by simp [h], by simp⟩
    · simp only [strlen, hb, if_false] at h
      cases hbs : strlen bs with
      | error e => simp [hbs] at h
      | ok m =>
        simp [hbs] at h
        obtain ⟨s, rest, h1, h2, h3⟩ := ih m hbs
        refine ⟨b :: s, rest, by simp [h1], by simp [h2, h], ?_⟩
        intro c hc
        rcases List.mem_cons.mp hc with hc | hc
        · exact hc ▸ hb
        · exact h3 c hc

theorem strlen_of_mem (buf : List Nat) (h : 0 ∈ buf) : ∃ n, strlen buf = .ok n := by
  induction buf with
  | nil => simp at h
  | cons b bs ih =>
    by_cases hb : b = 0
    · exact ⟨0, by simp [strlen, hb]⟩
    · have h1 : 0 ∈ bs := by
        rcases List.mem_cons.mp h with h | h
        · exact absurd h.symm hb
        · exact h
      obtain ⟨n, hn⟩ := ih h1
      exact ⟨n + 1, by simp [strlen, hb, hn]⟩

theorem c_str_append_zero (s rest : List Nat) (hs : ∀ b ∈ s, b ≠ 0) :
    c_str (s ++ 0 :: rest) = .ok s := by
  simp [c_str, strlen_append_zero s rest hs]

theorem read_at_append (s rest : List Nat) (c : Nat) :
    read_at (s ++ c :: rest) s.length = .ok c := by
  have h : (s ++ c :: rest)[s.length]? = some c := by
    induction s with
    | nil => simp
    | cons b bs ih => simpa using ih
  simp only [read_at, h]

theorem write_at_append (s rest : List Nat) (c v : Nat) :
    write_at (s ++ c :: rest) s.length v = .ok (s ++ v :: rest) := by
  simp [write_at]

theorem size_pred_succ (n : Nat) (h : n + 1 < SIZE_MOD) : size_pred (n + 1) = n := by
  unfold size_pred SIZE_MOD at *
  omega

/-! ## Lemmas on `cut_newline` -/

theorem exists_snoc (s : List Nat) (h : s ≠ []) : ∃ t c, s = t ++ [c] := by
  rcases List.eq_nil_or_concat s with h1 | ⟨t, c, h1⟩
  · exact absurd h1 h
  · exact ⟨t, c, by simpa using h1⟩

theorem strlen_snoc_zero (t rest : List Nat) (c : Nat) (ht : ∀ b ∈ t, b ≠ 0) (hc : c ≠ 0) :
    strlen (t ++ c :: 0 :: rest) = .ok (t.length + 1) := by
  have h := strlen_append_zero (t ++ [c]) rest (by
    intro b hb
    rcases List.mem_append.mp hb with hb | hb
    · exact ht b hb
    · simp at hb
      exact hb ▸ hc)
  simpa using h

/-- A string whose last character is not a line feed is left as it is. -/
theorem cut_newline_no_lf (t rest : List Nat) (c : Nat) (ht : ∀ b ∈ t, b ≠ 0)
    (hc : c ≠ 0) (hlf : c ≠ LF) (hlen : t.length + 1 < SIZE_MOD) :
    cut_newline (t ++ c :: 0 :: rest) = .ok (t ++ c :: 0 :: rest) := by
  simp only [cut_newline, strlen_snoc_zero t rest c ht hc, size_pred_succ _ hlen,
    read_at_append]
  simp [hlf]

/-- A final line feed that does not follow a carriage return is replaced by a terminator. -/
theorem cut_newline_lf (u rest : List Nat) (d : Nat) (hu : ∀ b ∈ u, b ≠ 0)
    (hd : d ≠ 0) (hcr : d ≠ CR) (hlen : u.length + 2 < SIZE_MOD) :
    cut_newline (u ++ d :: LF :: 0 :: rest) = .ok (u ++ d :: 0 :: 0 :: rest) := by
  have h1 : strlen (u ++ d :: LF :: 0 :: rest) = .ok (u.length + 1 + 1) := by
    have h := strlen_snoc_zero (u ++ [d]) rest LF (by
      intro b hb
      rcases List.mem_append.mp hb with hb | hb
      · exact hu b hb
      · simp at hb
        exact hb ▸ hd) (by decide)
    simpa using h
  have h2 : read_at (u ++ d :: LF :: 0 :: rest) (u.length + 1) = .ok LF := by
    have h := read_at_append (u ++ [d]) (0 :: rest) LF
    simpa using h
  have h3 : write_at (u ++ d :: LF :: 0 :: rest) (u.length + 1) 0
      = .ok (u ++ d :: 0 :: 0 :: rest) := by
    have h := write_at_append (u ++ [d]) (0 :: rest) LF 0
    simpa using h
  simp only [cut_newline, h1, size_pred_succ (u.length + 1) hlen, h2, h3,
    size_pred_succ u.length (by omega), read_at_append]
  simp [hcr]

/-- A final carriage return and line feed are both replaced by terminators. -/
theorem cut_newline_crlf (u rest : List Nat) (hu : ∀ b ∈ u, b ≠ 0)
    (hlen : u.length + 2 < SIZE_MOD) :
    cut_newline (u ++ CR :: LF :: 0 :: rest) = .ok (u ++ 0 :: 0 :: 0 :: rest) := by
  have h1 : strlen (u ++ CR :: LF :: 0 :: rest) = .ok (u.length + 1 + 1) := by
    have h := strlen_snoc_zero (u ++ [CR]) rest LF (by
      intro b hb
      rcases List.mem_append.mp hb with hb | hb
      · exact hu b hb
      · simp at hb
        rw [hb]
        decide) (by decide)
    simpa using h
  have h2 : read_at (u ++ CR :: LF :: 0 :: rest) (u.length + 1) = .ok LF := by
    have h := read_at_append (u ++ [CR]) (0 :: rest) LF
    simpa using h
  have h3 : write_at (u ++ CR :: LF :: 0 :: rest) (u.length + 1) 0
      = .ok (u ++ CR :: 0 :: 0 :: rest) := by
    have h := write_at_append (u ++ [CR]) (0 :: rest) LF 0
    simpa using h
  simp only [cut_newline, h1, size_pred_succ (u.length + 1) hlen, h2, h3,
    size_pred_succ u.length (by omega), read_at_append, write_at_append]
  simp

/-! ## Claims on `cut_newline` -/

/-- C4: for every non-empty string `s` without `'\r'` and `'\n'` (held in a buffer, so
without a `0` byte and shorter than `SIZE_MOD`), `cut_newline` turns `s` followed by
`"\r\n"` into `s`, turns `s` followed by `"\n"` into `s`, and leaves `s` itself
unchanged. -/
theorem cut_newline_line_endings (s rest : List Nat) (hne : s ≠ [])
    (h0 : ∀ b ∈ s, b ≠ 0) (hcr : CR ∉ s) (hlf : LF ∉ s) (hlen : s.length + 2 < SIZE_MOD) :
    cut_newline_str (s ++ CR :: LF :: 0 :: rest) = .ok s
    ∧ cut_newline_str (s ++ LF :: 0 :: rest) = .ok s
    ∧ cut_newline (s ++ 0 :: rest) = .ok (s ++ 0 :: rest)
    ∧ cut_newline_str (s ++ 0 :: rest) = .ok s := by
  obtain ⟨t, c, rfl⟩ := exists_snoc s hne
  have ht : ∀ b ∈ t, b ≠ 0 := fun b hb => h0 b (by simp [hb])
  have hc0 : c ≠ 0 := h0 c (by simp)
  have hccr : c ≠ CR := fun h => hcr (by simp [h])
  have hclf : c ≠ LF := fun h => hlf (by simp [h])
  have hl : t.length + 3 < SIZE_MOD := by simpa using hlen
  have e1 := cut_newline_crlf (t ++ [c]) rest h0 hlen
  have e2 := cut_newline_lf t rest c ht hc0 hccr (by omega)
  have e3 := cut_newline_no_lf t rest c ht hc0 hclf (by omega)
  have e2a : cut_newline ((t ++ [c]) ++ LF :: 0 :: rest) = .ok ((t ++ [c]) ++ 0 :: 0 :: rest) := by
    simpa using e2
  have e3a : cut_newline ((t ++ [c]) ++ 0 :: rest) = .ok ((t ++ [c]) ++ 0 :: rest) := by
    simpa using e3
  refine ⟨?_, ?_, e3a, ?_⟩
  · simp only [cut_newline_str, e1, c_str_append_zero _ _ h0]
  · simp only [cut_newline_str, e2a, c_str_append_zero _ _ h0]
  · simp only [cut_newline_str, e3a, c_str_append_zero _ _ h0]

/-- C4 at `s = "abc"`, the examples of the spec. -/
theorem cut_newline_line_endings_witness :
    cut_newline_str (bytes "abc" ++ CR :: LF :: 0 :: []) = .ok (bytes "abc")
    ∧ cut_newline_str (bytes "abc" ++ LF :: 0 :: []) = .ok (bytes "abc")
    ∧ cut_newline (bytes "abc" ++ 0 :: []) = .ok (bytes "abc" ++ 0 :: [])
    ∧ cut_newline_str (bytes "abc" ++ 0 :: []) = .ok (bytes "abc") :=
  cut_newline_line_endings (bytes "abc") [] (by decide) (by decide) (by decide) (by decide)
    (by decide)

/-- C3, as stated, fails: on `"a\n\n"` the first call leaves `"a\n"` and the second
call turns that into `"a"`. -/
theorem cut_newline_not_idempotent :
    cut_newline (bytes "a\n\n" ++ [0]) = .ok (bytes "a\n" ++ [0, 0])
    ∧ cut_newline (bytes "a\n" ++ [0, 0]) = .ok (bytes "a" ++ [0, 0, 0])
    ∧ c_str (bytes "a\n" ++ [0, 0]) = .ok (bytes "a\n")
    ∧ c_str (bytes "a" ++ [0, 0, 0]) = .ok (bytes "a")
    ∧ bytes "a" ≠ bytes "a\n" := by
  decide

/-- C3, amended: for every string `s` that does not end in two line endings (`"\n\n"` or
`"\n\r\n"`) and is not `""`, `"\n"` or `"\r\n"`, the first call of `cut_newline`
succeeds and a second call leaves the buffer exactly as the first call left it. -/
theorem cut_newline_idempotent (s rest : List Nat) (h0 : ∀ b ∈ s, b ≠ 0)
    (hne : s ≠ []) (hn1 : s ≠ [LF]) (hn2 : s ≠ [CR, LF])
    (hd1 : ¬ [LF, LF] <:+ s) (hd2 : ¬ [LF, CR, LF] <:+ s) (hlen : s.length < SIZE_MOD) :
    ∃ text1, cut_newline (s ++ 0 :: rest) = .ok text1 ∧ cut_newline text1 = .ok text1 := by
  obtain ⟨t, c, rfl⟩ := exists_snoc s hne
  have ht : ∀ b ∈ t, b ≠ 0 := fun b hb => h0 b (by simp [hb])
  have hc0 : c ≠ 0 := h0 c (by simp)
  have hl : t.length + 1 < SIZE_MOD := by simpa using hlen
  by_cases hc : c = LF
  · subst hc
    obtain ⟨u, d, rfl⟩ := exists_snoc t (by
      intro h
      subst h
      exact hn1 rfl)
    have hu : ∀ b ∈ u, b ≠ 0 := fun b hb => ht b (by simp [hb])
    have hd0 : d ≠ 0 := ht d (by simp)
    have hl2 : u.length + 2 < SIZE_MOD := by simpa using hl
    by_cases hd : d = CR
    · subst hd
      obtain ⟨v, e, rfl⟩ := exists_snoc u (by
        intro h
        subst h
        exact hn2 rfl)
      have hv : ∀ b ∈ v, b ≠ 0 := fun b hb => hu b (by simp [hb])
      have he0 : e ≠ 0 := hu e (by simp)
      have he : e ≠ LF := by
        intro h
        apply hd2
        subst h
        exact ⟨v, by simp⟩
      have hl3 : v.length + 3 < SIZE_MOD := by simpa using hl2
      refine ⟨v ++ e :: 0 :: 0 :: 0 :: rest, ?_, ?_⟩
      · have h := cut_newline_crlf (v ++ [e]) rest hu hl2
        simpa using h
      · exact cut_newline_no_lf v (0 :: 0 :: rest) e hv he0 he (by omega)
    · have hdl : d ≠ LF := by
        intro h
        apply hd1
        subst h
        exact ⟨u, by simp⟩
      refine ⟨u ++ d :: 0 :: 0 :: rest, ?_, ?_⟩
      · have h := cut_newline_lf u rest d hu hd0 hd hl2
        simpa using h
      · exact cut_newline_no_lf u (0 :: rest) d hu hd0 hdl (by omega)
  · refine ⟨t ++ c :: 0 :: rest, ?_, ?_⟩
    · have h := cut_newline_no_lf t rest c ht hc0 hc hl
      simpa using h
    · exact cut_newline_no_lf t rest c ht hc0 hc hl

/-- C3, amended, at `s = "abc\r\n"`. -/
theorem cut_newline_idempotent_witness :
    ∃ text1, cut_newline (bytes "abc\r\n" ++ 0 :: []) = .ok text1
      ∧ cut_newline text1 = .ok text1 :=
  cut_newline_idempotent (bytes "abc\r\n") [] (by decide) (by decide) (by decide) (by decide)
    (by decide) (by decide) (by decide)

/-- Apart from `""` and `"\n"`, every string is processed without a fault: all the
elements `cut_newline` reads or writes are inside the buffer. -/
theorem cut_newline_in_bounds (s rest : List Nat) (h0 : ∀ b ∈ s, b ≠ 0)
    (hne : s ≠ []) (hn1 : s ≠ [LF]) (hlen : s.length < SIZE_MOD) :
    ∃ text1, cut_newline (s ++ 0 :: rest) = .ok text1 := by
  obtain ⟨t, c, rfl⟩ := exists_snoc s hne
  have ht : ∀ b ∈ t, b ≠ 0 := fun b hb => h0 b (by simp [hb])
  have hc0 : c ≠ 0 := h0 c (by simp)
  have hl : t.length + 1 < SIZE_MOD := by simpa using hlen
  by_cases hc : c = LF
  · subst hc
    obtain ⟨u, d, rfl⟩ := exists_snoc t (by
      intro h
      subst h
      exact hn1 rfl)
    have hu : ∀ b ∈ u, b ≠ 0 := fun b hb => ht b (by simp [hb])
    have hd0 : d ≠ 0 := ht d (by simp)
    have hl2 : u.length + 2 < SIZE_MOD := by simpa using hl
    by_cases hd : d = CR
    · subst hd
      exact ⟨_, by simpa using cut_newline_crlf u rest hu hl2⟩
    · exact ⟨_, by simpa using cut_newline_lf u rest d hu hd0 hd hl2⟩
  · exact ⟨_, by simpa using cut_newline_no_lf t rest c ht hc0 hc hl⟩

/-- C10 fails on the code: for the empty string and for `"\n"` (each in a 64-byte
buffer) `cut_newline` accesses the element with index `SIZE_MOD - 1`, the wrapped value
of `strlen(text) - 1` and of `lf_pos - 1`. -/
theorem cut_newline_wraps_out_of_bounds :
    cut_newline (List.replicate 64 0) = .error (.out_of_bounds (SIZE_MOD - 1))
    ∧ cut_newline (LF :: List.replicate 63 0) = .error (.out_of_bounds (SIZE_MOD - 1))
    ∧ ¬ (SIZE_MOD - 1 < 64) := by
  decide

/-! ## Lemmas on `strcpy` and `add_msg_to_queue` -/

theorem strlen_lt_length (buf : List Nat) (n : Nat) (h : strlen buf = .ok n) :
    n < buf.length := by
  obtain ⟨s, rest, h1, h2, _⟩ := strlen_split buf n h
  subst h1
  simp
  omega

theorem strcpy_append_zero (dst s rest : List Nat) (hs : ∀ b ∈ s, b ≠ 0)
    (hfit : s.length + 1 ≤ dst.length) :
    strcpy dst (s ++ 0 :: rest) = .ok (s ++ 0 :: dst.drop (s.length + 1)) := by
  have h1 : (s ++ 0 :: rest).take (s.length + 1) = s ++ [0] := by
    have h := List.take_left (s ++ [0]) rest
    simpa using h
  simp only [strcpy, strlen_append_zero s rest hs, hfit, if_true, h1]
  simp

/-- The write `msg[MAX_MSG_LEN - 1] = 0` on a string of at least `MAX_MSG_LEN` characters. -/
theorem truncate_long (s rest : List Nat) (hlen : MAX_MSG_LEN ≤ s.length) :
    write_at (s ++ 0 :: rest) (MAX_MSG_LEN - 1) 0
      = .ok (s.take (MAX_MSG_LEN - 1) ++ 0 :: (s.drop MAX_MSG_LEN ++ 0 :: rest)) := by
  unfold MAX_MSG_LEN at *
  have hsplit : s = s.take 63 ++ s.drop 63 := (List.take_append_drop 63 s).symm
  obtain ⟨c, tl, hc⟩ : ∃ c tl, s.drop 63 = c :: tl := by
    cases hd : s.drop 63 with
    | nil =>
      have := congrArg List.length hd
      simp at this
      omega
    | cons c tl => exact ⟨c, tl, rfl⟩
  have htl : s.drop 64 = tl := by
    have h : s.drop 64 = (s.drop 63).drop 1 := by simp
    rw [h, hc]
    rfl
  have hl : (s.take 63).length = 63 := by simp; omega
  have h := write_at_append (s.take 63) (tl ++ 0 :: rest) c 0
  rw [hl] at h
  have e : s ++ 0 :: rest = s.take 63 ++ c :: (tl ++ 0 :: rest) := by
    conv_lhs => rw [hsplit, hc]
    simp
  rw [e, htl]
  exact h

/-- What `add_msg_to_queue` does with a string `s` held in `msg`, when the slot at
`newest` is `dst`. -/
theorem add_msg_spec (q : MsgQueue) (dst s rest : List Nat) (hs : ∀ b ∈ s, b ≠ 0)
    (hslot : q.msg_queue[q.msg_queue_newest]? = some dst)
    (hdst : dst.length = MAX_MSG_LEN) :
    add_msg_to_queue q (s ++ 0 :: rest) = .ok
      { queue :=
          { msg_queue := q.msg_queue.set q.msg_queue_newest
              (s.take (MAX_MSG_LEN - 1) ++ 0 :: dst.drop ((s.take (MAX_MSG_LEN - 1)).length + 1))
            msg_queue_newest := (q.msg_queue_newest + 1) % MSG_QUEUE_LEN
            msg_queue_oldest :=
              if q.msg_queue_newest = q.msg_queue_oldest
              then (q.msg_queue_oldest + 1) % MSG_QUEUE_LEN
              else q.msg_queue_oldest }
        msg :=
          if MAX_MSG_LEN ≤ s.length
          then s.take (MAX_MSG_LEN - 1) ++ 0 :: (s.drop MAX_MSG_LEN ++ 0 :: rest)
          else s ++ 0 :: rest
        warned := decide (MAX_MSG_LEN ≤ s.length) } := by
  have htake : ∀ b ∈ s.take (MAX_MSG_LEN - 1), b ≠ 0 :=
    fun b hb => hs b (List.mem_of_mem_take hb)
  by_cases hlen : MAX_MSG_LEN ≤ s.length
  · have hfit : (s.take (MAX_MSG_LEN - 1)).length + 1 ≤ dst.length := by
      rw [hdst]
      simp [MAX_MSG_LEN]
    simp only [add_msg_to_queue, strlen_append_zero s rest hs, ge_iff_le, hlen, if_true,
      truncate_long s rest hlen, hslot,
      strcpy_append_zero dst _ (s.drop MAX_MSG_LEN ++ 0 :: rest) htake hfit]
  · have hfull : s.take (MAX_MSG_LEN - 1) = s := by
      apply List.take_of_length_le
      unfold MAX_MSG_LEN at *
      omega
    have hfit : s.length + 1 ≤ dst.length := by
      rw [hdst]
      omega
    simp only [add_msg_to_queue, strlen_append_zero s rest hs, ge_iff_le, hlen, if_false,
      hslot, strcpy_append_zero dst s rest hs hfit, hfull]

/-! ## The ring buffer holds the history -/

theorem represents_init : Represents init_queue [] := by
  refine ⟨by simp [init_queue], ?_, rfl, rfl, ?_⟩
  · intro buf hbuf
    simp only [init_queue, List.mem_replicate] at hbuf
    rw [hbuf.2]
    exact ⟨by simp, [], by decide⟩
  · intro i s hi
    simp at hi

/-- The slot written by `strcpy` reads back as the stored string. -/
theorem c_str_stored (s dst : List Nat) (hs : ∀ b ∈ s, b ≠ 0) :
    c_str (s.take (MAX_MSG_LEN - 1) ++ 0 ::
      dst.drop ((s.take (MAX_MSG_LEN - 1)).length + 1)) = .ok (s.take (MAX_MSG_LEN - 1)) :=
  c_str_append_zero _ _ (fun b hb => hs b (List.mem_of_mem_take hb))

/-- One `add_msg_to_queue` extends the history by the string stored. -/
theorem represents_add (q : MsgQueue) (h : List (List Nat)) (s rest : List Nat)
    (hq : Represents q h) (hs : ∀ b ∈ s, b ≠ 0) :
    ∃ r, add_msg_to_queue q (s ++ 0 :: rest) = .ok r
      ∧ Represents r.queue (h ++ [s.take (MAX_MSG_LEN - 1)])
      ∧ r.warned = decide (MAX_MSG_LEN ≤ s.length)
      ∧ print_slot r.queue q.msg_queue_newest = .ok (s.take (MAX_MSG_LEN - 1)) := by
  obtain ⟨hlen, hbufs, hnew, hold, hslots⟩ := hq
  have hn : q.msg_queue_newest < q.msg_queue.length := by
    rw [hlen, hnew]
    exact Nat.mod_lt _ (by decide)
  have hslot : q.msg_queue[q.msg_queue_newest]? = some (q.msg_queue[q.msg_queue_newest]) :=
    List.getElem?_eq_getElem hn
  have hdst := (hbufs _ (List.getElem_mem hn)).1
  refine ⟨_, add_msg_spec q _ s rest hs hslot hdst, ⟨?_, ?_, ?_, ?_, ?_⟩, rfl, ?_⟩
  · simpa using hlen
  · intro buf hbuf
    rcases List.mem_or_eq_of_mem_set hbuf with hb | hb
    · exact hbufs buf hb
    · subst hb
      refine ⟨?_, _, c_str_stored s _ hs⟩
      simp only [List.length_append, List.length_cons, List.length_drop, hdst,
        List.length_take]
      unfold MAX_MSG_LEN
      omega
  · simp only [hnew, List.length_append, List.length_singleton]
    unfold MSG_QUEUE_LEN
    omega
  · simp only [hnew, hold, List.length_append, List.length_singleton]
    unfold MSG_QUEUE_LEN
    split_ifs <;> omega
  · intro i t hi hwin
    simp only [List.length_append, List.length_singleton] at hwin
    by_cases hil : i < h.length
    · have hne : q.msg_queue_newest ≠ i % MSG_QUEUE_LEN := by
        rw [hnew]
        unfold MSG_QUEUE_LEN at *
        omega
      have hi1 : h[i]? = some t := by
        rw [List.getElem?_append_left hil] at hi
        exact hi
      have := hslots i t hi1 (by omega)
      simp only [print_slot, List.getElem?_set_ne hne] at this ⊢
      exact this
    · have hlt : i < (h ++ [s.take (MAX_MSG_LEN - 1)]).length := by
        by_contra hge
        rw [List.getElem?_eq_none (by omega)] at hi
        exact absurd hi (by simp)
      simp only [List.length_append, List.length_singleton] at hlt
      have hieq : i = h.length := by omega
      subst hieq
      simp at hi
      subst hi
      simp only [print_slot, ← hnew, List.getElem?_set_self hn]
      exact c_str_stored s _ hs
  · simp only [print_slot, List.getElem?_set_self hn]
    exact c_str_stored s _ hs

/-! ## What `print_msg_queue` prints -/

/-- The loop started one position before slot `a % MSG_QUEUE_LEN`, with the `c` strings
`h[a], ..., h[a + c - 1]` up to the newest one still to come: it visits their slots
in order and prints them. -/
theorem print_loop_window (q : MsgQueue) (h : List (List Nat)) (hq : Represents q h) :
    ∀ (c fuel a : Nat), c < fuel → a + c = h.length → c < MSG_QUEUE_LEN →
      ∃ out, print_loop q fuel ((a + (MSG_QUEUE_LEN - 1)) % MSG_QUEUE_LEN) = .ok out
        ∧ out.map Prod.snd = h.drop a
        ∧ out.map Prod.fst = (List.range c).map (fun j => (a + j) % MSG_QUEUE_LEN) := by
  obtain ⟨_, _, hnew, _, hslots⟩ := hq
  intro c
  induction c with
  | zero =>
    intro fuel a hfuel ha _
    obtain ⟨fuel, rfl⟩ : ∃ f, fuel = f + 1 := ⟨fuel - 1, by omega⟩
    have hstop : (((a + (MSG_QUEUE_LEN - 1)) % MSG_QUEUE_LEN + 1) % MSG_QUEUE_LEN)
        = q.msg_queue_newest := by
      rw [hnew]
      unfold MSG_QUEUE_LEN
      omega
    refine ⟨[], ?_, ?_, ?_⟩
    · simp [print_loop, hstop]
    · have : h.length ≤ a := by omega
      simp [List.drop_of_length_le this]
    · simp
  | succ c ih =>
    intro fuel a hfuel ha hc
    obtain ⟨fuel, rfl⟩ : ∃ f, fuel = f + 1 := ⟨fuel - 1, by omega⟩
    have hpos : ((a + (MSG_QUEUE_LEN - 1)) % MSG_QUEUE_LEN + 1) % MSG_QUEUE_LEN
        = a % MSG_QUEUE_LEN := by
      unfold MSG_QUEUE_LEN
      omega
    have hgo : a % MSG_QUEUE_LEN ≠ q.msg_queue_newest := by
      rw [hnew]
      unfold MSG_QUEUE_LEN at *
      omega
    have halt : a < h.length := by omega
    have hread := hslots a h[a] (List.getElem?_eq_getElem halt) (by omega)
    have hnext : a % MSG_QUEUE_LEN = (a + 1 + (MSG_QUEUE_LEN - 1)) % MSG_QUEUE_LEN := by
      unfold MSG_QUEUE_LEN
      omega
    obtain ⟨out, h1, h2, h3⟩ := ih fuel (a + 1) (by omega) (by omega) (by omega)
    rw [← hnext] at h1
    refine ⟨(a % MSG_QUEUE_LEN, h[a]) :: out, ?_, ?_, ?_⟩
    · simp only [print_loop, hpos, hgo, ne_eq, not_false_eq_true, if_true, hread, h1]
    · simp only [List.map_cons, h2]
      exact (List.drop_eq_getElem_cons halt).symm
    · rw [List.range_succ_eq_map]
      simp only [List.map_cons, h3, List.map_map, Nat.add_zero, List.cons.injEq, true_and]
      apply List.map_congr_left
      intro j _
      simp only [Function.comp, Nat.succ_eq_add_one]
      congr 1
      omega

/-- With at least `MSG_QUEUE_LEN` units of fuel `print_msg_queue` returns, and it prints
the last `min h.length (MSG_QUEUE_LEN - 1)` strings of the history, oldest first, reading
none of them from the slot at `oldest`. -/
theorem print_represents (q : MsgQueue) (h : List (List Nat)) (hq : Represents q h)
    (fuel : Nat) (hfuel : MSG_QUEUE_LEN ≤ fuel) :
    print_msg_queue fuel q
        = .ok (h.drop (h.length - min h.length (MSG_QUEUE_LEN - 1)))
    ∧ ∃ ps, printed_positions fuel q = .ok ps ∧ q.msg_queue_oldest ∉ ps := by
  have hold := hq.2.2.2.1
  obtain ⟨out, h1, h2, h3⟩ := print_loop_window q h hq (min h.length (MSG_QUEUE_LEN - 1))
    fuel (h.length - min h.length (MSG_QUEUE_LEN - 1))
    (by unfold MSG_QUEUE_LEN at *; omega) (by omega) (by unfold MSG_QUEUE_LEN; omega)
  have hstart : (h.length - min h.length (MSG_QUEUE_LEN - 1) + (MSG_QUEUE_LEN - 1))
      % MSG_QUEUE_LEN = q.msg_queue_oldest := by
    rw [hold]
    unfold MSG_QUEUE_LEN
    split_ifs <;> omega
  rw [hstart] at h1
  refine ⟨by simp only [print_msg_queue, h1, h2], out.map Prod.fst,
    by simp only [printed_positions, h1], ?_⟩
  rw [h3]
  intro hmem
  obtain ⟨i, hi, hio⟩ := List.mem_map.mp hmem
  rw [List.mem_range] at hi
  rw [hold] at hio
  unfold MSG_QUEUE_LEN at *
  split_ifs at hio <;> omega

/-! ## Sequences of appends -/

theorem str_of_append_zero (s rest : List Nat) (hs : ∀ b ∈ s, b ≠ 0) :
    str_of (s ++ 0 :: rest) = s := by
  simp only [str_of, c_str_append_zero s rest hs]

theorem exists_split_of_mem (m : List Nat) (h : 0 ∈ m) :
    ∃ s rest, m = s ++ 0 :: rest ∧ ∀ b ∈ s, b ≠ 0 := by
  obtain ⟨n, hn⟩ := strlen_of_mem m h
  obtain ⟨s, rest, h1, _, h3⟩ := strlen_split m n hn
  exact ⟨s, rest, h1, h3⟩

theorem mem_zero_of_add_ok (q : MsgQueue) (m : List Nat) (r : AddResult)
    (h : add_msg_to_queue q m = .ok r) : 0 ∈ m := by
  cases hn : strlen m with
  | error e => simp [add_msg_to_queue, hn] at h
  | ok n =>
    obtain ⟨s, rest, h1, _, _⟩ := strlen_split m n hn
    rw [h1]
    simp

/-- Appending terminated messages always succeeds and extends the history by the
strings stored. -/
theorem add_all_represents (msgs : List (List Nat)) :
    ∀ (q : MsgQueue) (h : List (List Nat)), Represents q h → (∀ m ∈ msgs, 0 ∈ m) →
      ∃ q1, add_all q msgs = .ok q1 ∧ Represents q1 (h ++ msgs.map stored_str) := by
  induction msgs with
  | nil =>
    intro q h hq _
    exact ⟨q, rfl, by simpa using hq⟩
  | cons m rest ih =>
    intro q h hq hterm
    obtain ⟨s, tl, hm, hs⟩ := exists_split_of_mem m (hterm m (by simp))
    subst hm
    obtain ⟨r, hr, hrep, _, _⟩ := represents_add q h s tl hq hs
    obtain ⟨q1, h1, h2⟩ := ih r.queue _ hrep (fun m1 hm1 => hterm m1 (by simp [hm1]))
    refine ⟨q1, by simp only [add_all, hr, h1], ?_⟩
    simpa [stored_str, str_of_append_zero s tl hs] using h2

/-- Every state reached by successful appends holds some history. -/
theorem represents_of_add_all (msgs : List (List Nat)) (q q1 : MsgQueue)
    (h : List (List Nat)) (hq : Represents q h) (hrun : add_all q msgs = .ok q1) :
    Represents q1 (h ++ msgs.map stored_str) := by
  have hterm : ∀ m ∈ msgs, 0 ∈ m := by
    clear hq
    induction msgs generalizing q with
    | nil => simp
    | cons m rest ih =>
      cases hr : add_msg_to_queue q m with
      | error e => simp [add_all, hr] at hrun
      | ok r =>
        simp only [add_all, hr] at hrun
        intro m1 hm1
        rcases List.mem_cons.mp hm1 with hm1 | hm1
        · exact hm1 ▸ mem_zero_of_add_ok q m r hr
        · exact ih r.queue hrun m1 hm1
  obtain ⟨q2, h1, h2⟩ := add_all_represents msgs q h hq hterm
  rw [hrun] at h1
  cases h1
  exact h2

theorem stored_str_short (msgs : List (List Nat))
    (hs : ∀ s ∈ msgs, (∀ b ∈ s, b ≠ 0) ∧ s.length < MAX_MSG_LEN) :
    (msgs.map (· ++ [0])).map stored_str = msgs := by
  rw [List.map_map]
  conv_rhs => rw [← List.map_id msgs]
  apply List.map_congr_left
  intro s hmem
  obtain ⟨h0, hl⟩ := hs s hmem
  simp only [Function.comp, stored_str, str_of_append_zero s [] h0, id]
  apply List.take_of_length_le
  unfold MAX_MSG_LEN at *
  omega

/-- The dump after appending short strings: the last `min k (MSG_QUEUE_LEN - 1)`. -/
theorem dump_after_short (msgs : List (List Nat))
    (hs : ∀ s ∈ msgs, (∀ b ∈ s, b ≠ 0) ∧ s.length < MAX_MSG_LEN)
    (fuel : Nat) (hfuel : MSG_QUEUE_LEN ≤ fuel) :
    dump_after fuel (msgs.map (· ++ [0]))
      = .ok (msgs.drop (msgs.length - min msgs.length (MSG_QUEUE_LEN - 1))) := by
  obtain ⟨q, h1, h2⟩ := add_all_represents (msgs.map (· ++ [0])) init_queue []
    represents_init (by
      intro m hm
      obtain ⟨s, _, rfl⟩ := List.mem_map.mp hm
      simp)
  rw [stored_str_short msgs hs, List.nil_append] at h2
  simp only [dump_after, h1, (print_represents q msgs h2 fuel hfuel).1]

theorem c_str_length_lt (buf s : List Nat) (h : c_str buf = .ok s) : s.length < buf.length := by
  cases hn : strlen buf with
  | error e => simp [c_str, hn] at h
  | ok n =>
    have hlt := strlen_lt_length buf n hn
    simp only [c_str, hn, Except.ok.injEq] at h
    subst h
    simp
    omega

/-! ## Claims on the ring buffer -/

/-- C1, as stated, fails: after the `MSG_QUEUE_LEN + 1 = 9` messages `"m1"`, ..., `"m9"`
the dump is the last seven, `"m3"`, ..., `"m9"`, and not the last eight. -/
theorem dump_after_nine_is_last_seven :
    dump_after MSG_QUEUE_LEN nine_messages
      = .ok [bytes "m3", bytes "m4", bytes "m5", bytes "m6", bytes "m7", bytes "m8",
             bytes "m9"]
    ∧ dump_after MSG_QUEUE_LEN nine_messages
      ≠ .ok [bytes "m2", bytes "m3", bytes "m4", bytes "m5", bytes "m6", bytes "m7",
             bytes "m8", bytes "m9"] := by
  decide

/-- C1, amended: for every sequence of `m ≥ MSG_QUEUE_LEN + 1` appended messages, each
shorter than `MAX_MSG_LEN` characters, `print_msg_queue` returns and yields exactly the
last `MSG_QUEUE_LEN - 1 = 7` appended messages, in submission order. -/
theorem dump_after_wrapped (msgs : List (List Nat))
    (hs : ∀ s ∈ msgs, (∀ b ∈ s, b ≠ 0) ∧ s.length < MAX_MSG_LEN)
    (hm : MSG_QUEUE_LEN + 1 ≤ msgs.length) (fuel : Nat) (hfuel : MSG_QUEUE_LEN ≤ fuel) :
    dump_after fuel (msgs.map (· ++ [0]))
      = .ok (msgs.drop (msgs.length - (MSG_QUEUE_LEN - 1))) := by
  have h := dump_after_short msgs hs fuel hfuel
  have hmin : min msgs.length (MSG_QUEUE_LEN - 1) = MSG_QUEUE_LEN - 1 := by
    unfold MSG_QUEUE_LEN at *
    omega
  rw [hmin] at h
  exact h

/-- C1, amended, at `2 * MSG_QUEUE_LEN + 3 = 19` distinct messages. -/
theorem dump_after_wrapped_witness :
    dump_after MSG_QUEUE_LEN (nineteen_strings.map (· ++ [0]))
      = .ok (nineteen_strings.drop (nineteen_strings.length - (MSG_QUEUE_LEN - 1))) :=
  dump_after_wrapped nineteen_strings (by decide) (by decide) MSG_QUEUE_LEN (by decide)

/-- C2, as stated, fails: a message of exactly `MAX_MSG_LEN - 1 = 63` characters is
stored whole and no warning is written. -/
theorem add_msg_63_no_warning :
    (add_msg_to_queue init_queue (List.replicate 63 97 ++ [0])).map (fun r => r.warned)
      = .ok false
    ∧ (List.replicate 63 97).length ≥ MAX_MSG_LEN - 1 := by
  decide

/-- C2, amended: in every state reached by appends, for every message (so for every one
of length at least `MAX_MSG_LEN - 1`), `add_msg_to_queue` stores exactly the first
`MAX_MSG_LEN - 1` characters in the slot at `newest`, the stored entry has at most
`MAX_MSG_LEN - 1` characters, and the warning is written exactly when the length is at
least `MAX_MSG_LEN`: not for a message of exactly `MAX_MSG_LEN - 1` characters. -/
theorem add_msg_truncates (prior : List (List Nat)) (q : MsgQueue)
    (hq : add_all init_queue prior = .ok q) (s rest : List Nat) (hs : ∀ b ∈ s, b ≠ 0) :
    ∃ r, add_msg_to_queue q (s ++ 0 :: rest) = .ok r
      ∧ print_slot r.queue q.msg_queue_newest = .ok (s.take (MAX_MSG_LEN - 1))
      ∧ (s.take (MAX_MSG_LEN - 1)).length ≤ MAX_MSG_LEN - 1
      ∧ (r.warned = true ↔ MAX_MSG_LEN ≤ s.length) := by
  have hrep := represents_of_add_all prior init_queue q [] represents_init hq
  obtain ⟨r, h1, _, h3, h4⟩ := represents_add q _ s rest hrep hs
  refine ⟨r, h1, h4, ?_, ?_⟩
  · simp
  · rw [h3]
    simp

/-- C2, amended, at a message of 70 characters appended to the initial queue. -/
theorem add_msg_truncates_witness :
    ∃ r, add_msg_to_queue init_queue (List.replicate 70 97 ++ 0 :: []) = .ok r
      ∧ print_slot r.queue init_queue.msg_queue_newest
          = .ok ((List.replicate 70 97).take (MAX_MSG_LEN - 1))
      ∧ ((List.replicate 70 97).take (MAX_MSG_LEN - 1)).length ≤ MAX_MSG_LEN - 1
      ∧ (r.warned = true ↔ MAX_MSG_LEN ≤ (List.replicate 70 97).length) :=
  add_msg_truncates [] init_queue rfl (List.replicate 70 97) [] (by decide)

/-- C6: for every sequence of terminated messages of any length, the appends succeed
from the initial state and leave both cursors in `[0, MSG_QUEUE_LEN)`, a dump that
returns between 0 and `MSG_QUEUE_LEN` entries, and in every slot a string of at most
`MAX_MSG_LEN - 1` characters. -/
theorem ring_buffer_invariant (msgs : List (List Nat)) (hterm : ∀ m ∈ msgs, 0 ∈ m) :
    ∃ q, add_all init_queue msgs = .ok q
      ∧ q.msg_queue_newest < MSG_QUEUE_LEN
      ∧ q.msg_queue_oldest < MSG_QUEUE_LEN
      ∧ (∀ fuel, MSG_QUEUE_LEN ≤ fuel →
          ∃ out, print_msg_queue fuel q = .ok out ∧ 0 ≤ out.length
            ∧ out.length ≤ MSG_QUEUE_LEN)
      ∧ ∀ buf ∈ q.msg_queue, ∃ s, c_str buf = .ok s ∧ s.length ≤ MAX_MSG_LEN - 1 := by
  obtain ⟨q, h1, h2⟩ := add_all_represents msgs init_queue [] represents_init hterm
  obtain ⟨_, hbufs, hnew, hold, _⟩ := id h2
  refine ⟨q, h1, ?_, ?_, ?_, ?_⟩
  · rw [hnew]
    exact Nat.mod_lt _ (by decide)
  · rw [hold]
    unfold MSG_QUEUE_LEN
    split_ifs <;> omega
  · intro fuel hfuel
    refine ⟨_, (print_represents q _ h2 fuel hfuel).1, Nat.zero_le _, ?_⟩
    simp only [List.length_drop]
    unfold MSG_QUEUE_LEN
    omega
  · intro buf hbuf
    obtain ⟨hl, s, hs⟩ := hbufs buf hbuf
    refine ⟨s, hs, ?_⟩
    have := c_str_length_lt buf s hs
    rw [hl] at this
    unfold MAX_MSG_LEN at *
    omega

/-- C6 at three messages, the second one of 70 characters. -/
theorem ring_buffer_invariant_witness :
    ∃ q, add_all init_queue [bytes "hi" ++ [0], List.replicate 70 97 ++ [0], [0]] = .ok q
      ∧ q.msg_queue_newest < MSG_QUEUE_LEN
      ∧ q.msg_queue_oldest < MSG_QUEUE_LEN
      ∧ (∀ fuel, MSG_QUEUE_LEN ≤ fuel →
          ∃ out, print_msg_queue fuel q = .ok out ∧ 0 ≤ out.length
            ∧ out.length ≤ MSG_QUEUE_LEN)
      ∧ ∀ buf ∈ q.msg_queue, ∃ s, c_str buf = .ok s ∧ s.length ≤ MAX_MSG_LEN - 1 :=
  ring_buffer_invariant [bytes "hi" ++ [0], List.replicate 70 97 ++ [0], [0]] (by decide)

/-- C8: after any sequence of `k ≥ 0` appended messages, each shorter than `MAX_MSG_LEN`
characters, `print_msg_queue` returns and emits exactly the last
`min k (MSG_QUEUE_LEN - 1)` of them, unchanged and oldest first; the last line emitted
is the most recently appended message, and the slot at index `oldest` is not read. -/
theorem dump_after_appends (msgs : List (List Nat))
    (hs : ∀ s ∈ msgs, (∀ b ∈ s, b ≠ 0) ∧ s.length < MAX_MSG_LEN)
    (fuel : Nat) (hfuel : MSG_QUEUE_LEN ≤ fuel) :
    ∃ q out ps, add_all init_queue (msgs.map (· ++ [0])) = .ok q
      ∧ print_msg_queue fuel q = .ok out
      ∧ out = msgs.drop (msgs.length - min msgs.length (MSG_QUEUE_LEN - 1))
      ∧ out.length = min msgs.length (MSG_QUEUE_LEN - 1)
      ∧ out.getLast? = msgs.getLast?
      ∧ printed_positions fuel q = .ok ps
      ∧ q.msg_queue_oldest ∉ ps := by
  obtain ⟨q, h1, h2⟩ := add_all_represents (msgs.map (· ++ [0])) init_queue []
    represents_init (by
      intro m hm
      obtain ⟨s, _, rfl⟩ := List.mem_map.mp hm
      simp)
  rw [stored_str_short msgs hs, List.nil_append] at h2
  obtain ⟨hp, ps, hps, hnot⟩ := print_represents q msgs h2 fuel hfuel
  refine ⟨q, _, ps, h1, hp, rfl, ?_, ?_, hps, hnot⟩
  · simp only [List.length_drop]
    omega
  · cases msgs with
    | nil => rfl
    | cons m rest =>
      rw [List.getLast?_drop, if_neg]
      simp only [List.length_cons]
      unfold MSG_QUEUE_LEN
      omega

/-- C8 at three short messages. -/
theorem dump_after_appends_witness :
    ∃ q out ps,
      add_all init_queue ([bytes "one", bytes "two", bytes "three"].map (· ++ [0])) = .ok q
      ∧ print_msg_queue MSG_QUEUE_LEN q = .ok out
      ∧ out = [bytes "one", bytes "two", bytes "three"].drop
          ([bytes "one", bytes "two", bytes "three"].length
            - min [bytes "one", bytes "two", bytes "three"].length (MSG_QUEUE_LEN - 1))
      ∧ out.length = min [bytes "one", bytes "two", bytes "three"].length (MSG_QUEUE_LEN - 1)
      ∧ out.getLast? = [bytes "one", bytes "two", bytes "three"].getLast?
      ∧ printed_positions MSG_QUEUE_LEN q = .ok ps
      ∧ q.msg_queue_oldest ∉ ps :=
  dump_after_appends [bytes "one", bytes "two", bytes "three"] (by decide) MSG_QUEUE_LEN
    (by decide)

/-! ## Claims on the connection handler -/

theorem handler_loop_returned (s : Session) (its : List Iteration) :
    handler_loop (.returned s) its = .returned s := by
  cases its <;> rfl

theorem handler_loop_append (pre rest : List Iteration) :
    ∀ o, handler_loop o (pre ++ rest) = handler_loop (handler_loop o pre) rest := by
  induction pre with
  | nil =>
    intro o
    cases o <;> rfl
  | cons res pre ih =>
    intro o
    cases o with
    | running s => simpa [handler_loop] using ih (loop_body s res)
    | returned s => simp [handler_loop, handler_loop_returned]
    | crashed f =>
      cases rest <;> simp [handler_loop]

/-- A receive that reports the closed connection (zero bytes) is not examined: after the
handshake and the message `"hi\n"` it does not end the handler, which stays in its loop
with the socket open and has appended `"hi"` a second time. -/
theorem handler_ignores_peer_close :
    (pass []).received = .data []
    ∧ recv_ret MAX_MSG_LEN (pass []).received = 0
    ∧ (client_handler init_queue zeroed zeroed alice [pass (bytes "hi\n")]).history
        = .ok [bytes "hi"]
    ∧ (client_handler init_queue zeroed zeroed alice
        [pass (bytes "hi\n"), pass []]).terminated = false
    ∧ (client_handler init_queue zeroed zeroed alice
        [pass (bytes "hi\n"), pass []]).session.map (fun s => s.closed) = some false
    ∧ (client_handler init_queue zeroed zeroed alice
        [pass (bytes "hi\n"), pass []]).history = .ok [bytes "hi", bytes "hi"] := by
  decide

/-- The error paths the handler does have: when the receive of the username returns a
negative result, the handler closes the socket and returns with the history untouched;
and when, in a pass of the loop, the send of the prompt or the receive returns a negative
result, the handler returns in that pass with the history as it was before the pass,
whatever results would follow. -/
theorem handler_stops_on_error (q : MsgQueue) (username0 client_msg0 : List Nat)
    (hs : Handshake) :
    (hs.received = .error → ∀ its,
      ∃ s, client_handler q username0 client_msg0 hs its = .returned s
        ∧ s.closed = true ∧ s.queue = q)
    ∧ (∀ pre res rest s,
        client_handler q username0 client_msg0 hs pre = .running s →
        (res.prompt_send < 0 ∨ res.received = .error) →
        ∃ s1, client_handler q username0 client_msg0 hs (pre ++ res :: rest) = .returned s1
          ∧ s1.queue = s.queue) := by
  constructor
  · intro herr its
    refine ⟨{ queue := q, client_msg := client_msg0, sent := [username_prompt],
              closed := true }, ?_, rfl, rfl⟩
    simp [client_handler, handshake, herr, recv_ret, handler_loop_returned]
  · intro pre res rest s hrun hfail
    have hbody : ∃ s1, loop_body s res = .returned s1 ∧ s1.queue = s.queue := by
      have hp : sprintf_server_msg (bytes "Send: ") = .ok (bytes "Send: ") := by decide
      refine ⟨{ s with sent := s.sent ++ [bytes "Send: "] }, ?_, rfl⟩
      rcases hfail with hneg | herr
      · simp only [loop_body, hp, hneg, if_true]
      · by_cases hneg : res.prompt_send < 0
        · simp only [loop_body, hp, hneg, if_true]
        · simp [loop_body, hp, hneg, herr, recv_ret]
    obtain ⟨s1, h1, h2⟩ := hbody
    refine ⟨s1, ?_, h2⟩
    unfold client_handler at hrun ⊢
    rw [handler_loop_append, hrun]
    simp only [handler_loop, h1, handler_loop_returned]

/-- The error paths at a failed receive of the username and at a failed send of the
prompt in the second pass of the loop. -/
theorem handler_stops_on_error_witness :
    (∃ s, client_handler init_queue zeroed zeroed
        { prompt_send := 31, received := .error, greeting_send := 13 }
        [pass (bytes "hi\n")] = .returned s
      ∧ s.closed = true ∧ s.queue = init_queue)
    ∧ (∃ s s1,
        client_handler init_queue zeroed zeroed alice [pass (bytes "hi\n")] = .running s
        ∧ client_handler init_queue zeroed zeroed alice
            ([pass (bytes "hi\n")]
              ++ { prompt_send := -1, received := .data (bytes "x\n"), echo_send := 1 }
              :: [pass (bytes "yo\n")]) = .returned s1
        ∧ s1.queue = s.queue) := by
  have key : ∃ s,
      client_handler init_queue zeroed zeroed alice [pass (bytes "hi\n")] = .running s :=
    ⟨_, rfl⟩
  obtain ⟨s, hrun⟩ := key
  obtain ⟨s1, h1, h2⟩ := (handler_stops_on_error init_queue zeroed zeroed alice).2
    [pass (bytes "hi\n")]
    { prompt_send := -1, received := .data (bytes "x\n"), echo_send := 1 }
    [pass (bytes "yo\n")] s hrun (Or.inl (by decide))
  exact ⟨(handler_stops_on_error init_queue zeroed zeroed
      { prompt_send := 31, received := .error, greeting_send := 13 }).1 rfl
      [pass (bytes "hi\n")], s, s1, hrun, h1, h2⟩

/-- C5 fails on the code: when, in a pass of the loop, the send of the prompt or the
receive returns a negative result, the handler returns, with nothing further appended to
the history, but without `close(client_socket)`: the socket stays open. The failed
receive of the username, before the loop, does close it. -/
theorem handler_returns_without_close :
    (client_handler init_queue zeroed zeroed alice
        [pass (bytes "hi\n"),
         { prompt_send := -1, received := .data (bytes "x\n"), echo_send := 1 }]).terminated
      = true
    ∧ (client_handler init_queue zeroed zeroed alice
        [pass (bytes "hi\n"),
         { prompt_send := -1, received := .data (bytes "x\n"), echo_send := 1 }]).session.map
          (fun s => s.closed) = some false
    ∧ (client_handler init_queue zeroed zeroed alice
        [pass (bytes "hi\n"),
         { prompt_send := -1, received := .data (bytes "x\n"), echo_send := 1 }]).history
      = .ok [bytes "hi"]
    ∧ (client_handler init_queue zeroed zeroed alice
        [pass (bytes "hi\n"),
         { prompt_send := 6, received := .error, echo_send := 1 }]).terminated = true
    ∧ (client_handler init_queue zeroed zeroed alice
        [pass (bytes "hi\n"),
         { prompt_send := 6, received := .error, echo_send := 1 }]).session.map
          (fun s => s.closed) = some false
    ∧ (client_handler init_queue zeroed zeroed
        { prompt_send := 31, received := .error, greeting_send := 13 } []).session.map
          (fun s => s.closed) = some true := by
  decide

/-- C7 fails on the code: after the chunk `"hello world\n"`, the chunk `"hi\n"` is
appended to the history and echoed as `"hi\nlo world"`, the new bytes followed by what
the earlier chunk left in `client_msg`, and not as `"hi"`, the chunk with its line
ending stripped. -/
theorem handler_message_keeps_old_bytes :
    (client_handler init_queue zeroed zeroed alice
        [pass (bytes "hello world\n"), pass (bytes "hi\n")]).history
      = .ok [bytes "hello world", bytes "hi\nlo world"]
    ∧ (client_handler init_queue zeroed zeroed alice
        [pass (bytes "hello world\n"), pass (bytes "hi\n")]).session.map
          (fun s => s.sent.getLast?)
      = some (some (echo_label ++ bytes "hi\nlo world" ++ [LF]))
    ∧ cut_newline_str (bytes "hi\n" ++ [0]) = .ok (bytes "hi")
    ∧ bytes "hi\nlo world" ≠ bytes "hi" := by
  decide

/-- C9 fails on the code: the label has 15 characters, so the echo line of a message of
47 characters fills the 64 bytes of `server_msg` exactly, a message of 48 characters
needs 65 bytes and one of 63 characters needs 80; the handler that receives 48
characters and a line feed writes past the end of `server_msg`. -/
theorem echo_overflows_server_msg :
    echo_label.length = 15
    ∧ format_echo (List.replicate 47 97 ++ [0])
        = .ok (echo_label ++ List.replicate 47 97 ++ [LF])
    ∧ format_echo (List.replicate 48 97 ++ [0]) = .error (.overflow 65 MAX_MSG_LEN)
    ∧ format_echo (List.replicate 63 97 ++ [0]) = .error (.overflow 80 MAX_MSG_LEN)
    ∧ client_handler init_queue zeroed zeroed alice [pass (List.replicate 48 97 ++ [LF])]
        = .crashed (.overflow 65 MAX_MSG_LEN) := by
  decide

end SocketChat
